import Mathlib

set_option maxRecDepth 8000

/- Verification of the sprite layout decoder of src/parse.rs.  The byte
   level decoder is embedded as executable Lean functions over lists of
   natural numbers standing for bytes.  Machine integers are modelled as
   Nat or Int with explicit reduction modulo 2 ^ 32 where the Rust code
   wraps; 32-bit floats are modelled by their raw bit pattern together
   with their exact rational value. -/

/-- Error values of the decoder, mirroring the failure cases raised in
src/parse.rs: short reads, the two float validation failures of
read_f32_le_to_i32, the unknown sprite tag, and the empty sprite table. -/
inductive SgSpriteErr where
  | ioError
  | unsuitableF32
  | fractPart
  | unknownSpriteType (tag : Nat)
  | noSprites
deriving DecidableEq

/-- IEEE-754 binary32 value, stored as its raw 32-bit pattern (the pattern
read little-endian from the stream by read_f32_le_to_i32). -/
structure F32 where
  bits : Nat
deriving DecidableEq

/-- Sign bit of the float. -/
def F32.sign (f : F32) : Nat := f.bits / 2 ^ 31 % 2

/-- Biased 8-bit exponent field of the float. -/
def F32.exp (f : F32) : Nat := f.bits / 2 ^ 23 % 2 ^ 8

/-- 23-bit mantissa field of the float. -/
def F32.frac (f : F32) : Nat := f.bits % 2 ^ 23

/-- Rust f32::is_nan: exponent field all ones, mantissa non-zero. -/
def F32.isNan (f : F32) : Bool := f.exp == 255 && f.frac != 0

/-- Rust f32::is_infinite: exponent field all ones, mantissa zero. -/
def F32.isInfinite (f : F32) : Bool := f.exp == 255 && f.frac == 0

/-- Exact mathematical value of a finite float as a rational number:
subnormals are sign * frac * 2 ^ (-149), normals are
sign * (2 ^ 23 + frac) * 2 ^ (exp - 150).  Rust f32::fract is zero exactly
when this value is an integer, i.e. when its denominator is 1. -/
def F32.toRat (f : F32) : ℚ :=
  let sgn : Int := if f.sign = 1 then -1 else 1
  if f.exp = 0 then mkRat (sgn * f.frac) (2 ^ 149)
  else mkRat (sgn * ((2 ^ 23 + f.frac) * 2 ^ f.exp)) (2 ^ 150)

/-- Rust as-i32 cast applied to an integral float value: truncation is
the identity on integers, and the cast saturates at the i32 bounds. -/
def satI32 (n : Int) : Int :=
  if n < -2147483648 then -2147483648
  else if 2147483647 < n then 2147483647
  else n

/-- Validation and conversion performed by read_f32_le_to_i32 on the float
value it has read (src/parse.rs lines 60-69): reject NaN and infinities,
reject values with a fractional part, otherwise cast with as-i32. -/
def f32ToI32 (f : F32) : Except SgSpriteErr Int :=
  if f.isNan || f.isInfinite then .error .unsuitableF32
  else if f.toRat.den ≠ 1 then .error .fractPart
  else .ok (satI32 f.toRat.num)

/-- Bit pattern of the float -3.0. -/
def f32_neg3 : F32 := ⟨0xC0400000⟩

/-- Bit pattern of the float 2147483648.0 = 2 ^ 31, the smallest positive
integral f32 outside the i32 range. -/
def f32_two_pow_31 : F32 := ⟨0x4F000000⟩

/-- C1 counterexample: the float 2 ^ 31 is finite with zero fractional
part, yet the conversion returns the saturated value 2147483647, not the
mathematical value 2147483648 of the float. -/
theorem C1_truncation_counterexample :
    f32_two_pow_31.isNan = false ∧ f32_two_pow_31.isInfinite = false ∧
    f32_two_pow_31.toRat = 2147483648 ∧
    f32ToI32 f32_two_pow_31 = .ok 2147483647 ∧
    (2147483647 : Int) ≠ 2147483648 := by
  refine ⟨rfl, rfl, by decide, rfl, by decide⟩

/-- C1 amended: for every finite float with zero fractional part the
conversion succeeds with the saturating as-i32 cast of its mathematical
integer value; in particular, when that value lies inside the 32-bit
signed range the conversion returns it exactly (truncation). -/
theorem C1_truncation_exact (f : F32) (hn : f.isNan = false)
    (hi : f.isInfinite = false) (hd : f.toRat.den = 1) :
    f32ToI32 f = .ok (satI32 f.toRat.num) ∧
    (-2147483648 ≤ f.toRat.num → f.toRat.num ≤ 2147483647 →
      f32ToI32 f = .ok f.toRat.num) := by
  have h1 : (f.isNan || f.isInfinite) = false := by simp [hn, hi]
  constructor
  · simp [f32ToI32, h1, hd]
  · intro hlo hhi
    have hs : satI32 f.toRat.num = f.toRat.num := by
      unfold satI32
      split_ifs with h h2 <;> omega
    simp [f32ToI32, h1, hd, hs]

/-- C1 witness: the chunk field -3.0 is accepted and converts to -3. -/
theorem C1_truncation_exact_witness :
    f32_neg3.isNan = false ∧ f32_neg3.isInfinite = false ∧
    f32_neg3.toRat = -3 ∧ f32ToI32 f32_neg3 = .ok (-3) := by
  refine ⟨rfl, rfl, by decide, ?_⟩
  have h := (C1_truncation_exact f32_neg3 rfl rfl (by decide)).2
    (by decide) (by decide)
  rw [show f32_neg3.toRat.num = -3 from by decide] at h
  exact h

/-- C2: the conversion of a chunk float field fails with the unsuitable
value error exactly when the float is NaN or infinite, fails with the
fractional part error exactly when it is finite with a non-zero
fractional part, and succeeds exactly when it is finite and integral. -/
theorem C2_float_error_iff (f : F32) :
    (f32ToI32 f = .error .unsuitableF32 ↔
      (f.isNan = true ∨ f.isInfinite = true)) ∧
    (f32ToI32 f = .error .fractPart ↔
      (f.isNan = false ∧ f.isInfinite = false ∧ f.toRat.den ≠ 1)) ∧
    ((∃ n, f32ToI32 f = .ok n) ↔
      (f.isNan = false ∧ f.isInfinite = false ∧ f.toRat.den = 1)) := by
  cases hn : f.isNan <;> cases hi : f.isInfinite <;>
    by_cases hd : f.toRat.den = 1 <;>
      simp [f32ToI32, hn, hi, hd]

/-- Little-endian 32-bit decode of four bytes. -/
def u32le (b0 b1 b2 b3 : Nat) : Nat :=
  b0 + b1 * 256 + b2 * 65536 + b3 * 16777216

/-- Byte at position i of a stream, as read by the decoder (reads past
the end never happen on the paths where this is used). -/
def byteAt (l : List Nat) (i : Nat) : Nat := (l[i]?).getD 0

/-- Little-endian u32 field starting at offset i of a stream. -/
def u32leAt (l : List Nat) (i : Nat) : Nat :=
  u32le (byteAt l i) (byteAt l (i + 1)) (byteAt l (i + 2)) (byteAt l (i + 3))

/-- Rust read_exact into an n-byte buffer: the first n bytes and the
remaining stream on success, an I/O error when the stream is shorter. -/
def takeBytes (n : Nat) (bs : List Nat) :
    Except SgSpriteErr (List Nat × List Nat) :=
  if n ≤ bs.length then .ok (bs.take n, bs.drop n) else .error .ioError

/-- read_f32_le_to_i32 (src/parse.rs lines 60-69): read four bytes as a
little-endian f32 and validate/convert it with f32ToI32. -/
def read_f32_le_to_i32 (bs : List Nat) :
    Except SgSpriteErr (Int × List Nat) :=
  match takeBytes 4 bs with
  | .error e => .error e
  | .ok (r, rest) =>
    match f32ToI32 ⟨u32leAt r 0⟩ with
    | .error e => .error e
    | .ok n => .ok (n, rest)

/-- Sprite classification (enum SpriteT of src/parse.rs). -/
inductive SpriteT where
  | Base
  | Sub
  | Dep (exact_type : Nat) (depends_on : Nat)
  | Overlay
deriving DecidableEq

/-- struct Sprite of src/parse.rs. -/
structure Sprite where
  sprite_type : SpriteT
  id : Nat
  chunk_offset : Nat
  chunk_count : Nat
deriving DecidableEq

/-- struct Chunk of src/parse.rs. -/
structure Chunk where
  img_x : Int
  img_y : Int
  chunk_x : Int
  chunk_y : Int
deriving DecidableEq

/-- Running bounding box accumulator of parse_lay_impl. -/
structure BBox where
  maxX : Int
  minX : Int
  maxY : Int
  minY : Int
deriving DecidableEq

/-- struct ParsedLay of src/parse.rs.  The HashMap sub_map is modelled by
its lookup function. -/
structure ParsedLay where
  sprites : List Sprite
  sub_map : Nat → Option Nat
  chunks : List Chunk
  base_dep : Option Nat
  sprite_w : Nat
  sprite_h : Nat
  sprite_xy_min : Int × Int
  sprite_xy_max : Int × Int

instance : Inhabited ParsedLay :=
  ⟨⟨[], fun _ => none, [], none, 0, 0, (0, 0), (0, 0)⟩⟩

/-- Header size in bytes. -/
def HEADER_SZ : Nat := 8

/-- Sprite record size in bytes. -/
def SPRITE_SZ : Nat := 12

/-- Chunk record size in bytes. -/
def CHUNK_SZ : Nat := 16

/-- Fixed canvas padding added along each axis. -/
def SPRITE_SIZE_PAD : Int := 32

/-- Threshold for compressed-stream detection. -/
def SPRITES_MAX_RAW : Nat := 65536

/-- Sprite type discriminant mapping (match on head byte 3 in
parse_lay_impl); any byte outside the six known tags is a format error. -/
def classify (tag : Nat) (aux : Nat) : Except SgSpriteErr SpriteT :=
  if tag = 0x00 then .ok .Base
  else if tag = 0x20 then .ok .Sub
  else if tag = 0x40 ∨ tag = 0x30 ∨ tag = 0x60 then .ok (.Dep tag aux)
  else if tag = 0x50 then .ok .Overlay
  else .error (.unknownSpriteType tag)

/-- Decode one 12-byte sprite record: bytes 0-3 are id, aux id, flags and
type tag, followed by two little-endian u32 fields. -/
def parseSprite (r : List Nat) : Except SgSpriteErr Sprite :=
  match classify (byteAt r 3) (byteAt r 1) with
  | .error e => .error e
  | .ok t =>
    .ok { sprite_type := t
          id := byteAt r 0
          chunk_offset := u32leAt r 4
          chunk_count := u32leAt r 8 }

/-- HashMap::insert on the lookup-function model of sub_map. -/
def mapInsert (m : Nat → Option Nat) (k v : Nat) : Nat → Option Nat :=
  fun k2 => if k2 = k then some v else m k2

/-- Sprite reading loop of parse_lay_impl: reads the given number of
12-byte records, appending each decoded sprite and registering each
Sub-variant sprite in sub_map under its id (last write wins). -/
def readSprites : Nat → List Nat → List Sprite → (Nat → Option Nat) →
    Except SgSpriteErr (List Sprite × (Nat → Option Nat) × List Nat)
  | 0, bs, acc, m => .ok (acc, m, bs)
  | n + 1, bs, acc, m =>
    match takeBytes SPRITE_SZ bs with
    | .error e => .error e
    | .ok (r, rest) =>
      match parseSprite r with
      | .error e => .error e
      | .ok s =>
        readSprites n rest (acc ++ [s])
          (if s.sprite_type = SpriteT.Sub then mapInsert m s.id acc.length
           else m)

/-- Decode one 16-byte chunk record as four validated f32 fields. -/
def parseChunk (r : List Nat) : Except SgSpriteErr Chunk :=
  match read_f32_le_to_i32 r with
  | .error e => .error e
  | .ok (x0, r1) =>
    match read_f32_le_to_i32 r1 with
    | .error e => .error e
    | .ok (x1, r2) =>
      match read_f32_le_to_i32 r2 with
      | .error e => .error e
      | .ok (x2, r3) =>
        match read_f32_le_to_i32 r3 with
        | .error e => .error e
        | .ok (x3, _) =>
          .ok { img_x := x0, img_y := x1, chunk_x := x2, chunk_y := x3 }

/-- Bounding box update performed for each chunk: the first two fields
extend the running extrema. -/
def bbUpdate (bb : BBox) (c : Chunk) : BBox :=
  { maxX := max bb.maxX c.img_x
    minX := min bb.minX c.img_x
    maxY := max bb.maxY c.img_y
    minY := min bb.minY c.img_y }

/-- Chunk reading loop of parse_lay_impl: reads the given number of
16-byte records, appending each decoded chunk and folding the bounding
box update. -/
def readChunks : Nat → List Nat → List Chunk → BBox →
    Except SgSpriteErr (List Chunk × BBox × List Nat)
  | 0, bs, acc, bb => .ok (acc, bb, bs)
  | n + 1, bs, acc, bb =>
    match takeBytes CHUNK_SZ bs with
    | .error e => .error e
    | .ok (r, rest) =>
      match parseChunk r with
      | .error e => .error e
      | .ok c => readChunks n rest (acc ++ [c]) (bbUpdate bb c)

/-- Rust i32::abs under two's-complement wrap-around: the absolute value,
except that the minimum i32 is its own absolute value. -/
def wrapAbs (n : Int) : Int := if n = -2147483648 then n else |n|

/-- Rust as-u32 bit cast of a (wrapped) i32 value: reduction modulo
2 ^ 32 into the range of a u32. -/
def toU32 (n : Int) : Nat := (n % 2 ^ 32).toNat

/-- Final assembly of the ParsedLay result (src/parse.rs lines 148-199):
base detection at index 0 only, padded canvas dimensions computed with
wrapping i32 arithmetic, and the raw extrema pair. -/
def assemble (sprites : List Sprite) (m : Nat → Option Nat)
    (chunks : List Chunk) (bb : BBox) : ParsedLay :=
  { sprites := sprites
    sub_map := m
    chunks := chunks
    base_dep :=
      match sprites.head? with
      | some s => if s.sprite_type = SpriteT.Base then some 0 else none
      | none => none
    sprite_w := toU32 (bb.maxX + wrapAbs bb.minX + SPRITE_SIZE_PAD)
    sprite_h := toU32 (bb.maxY + wrapAbs bb.minY + SPRITE_SIZE_PAD)
    sprite_xy_min := (bb.minX, bb.minY)
    sprite_xy_max := (bb.maxX, bb.maxY) }

/-- parse_lay_impl (src/parse.rs lines 87-202): header, sprite table,
empty check, chunk table, assembly. -/
def parse_lay_impl (bs : List Nat) : Except SgSpriteErr ParsedLay :=
  match takeBytes HEADER_SZ bs with
  | .error e => .error e
  | .ok (hdr, rest) =>
    match readSprites (u32leAt hdr 0) rest [] (fun _ => none) with
    | .error e => .error e
    | .ok (sprites, sub_map, rest2) =>
      if sprites.isEmpty then .error .noSprites
      else
        match readChunks (u32leAt hdr 4) rest2 [] ⟨0, 0, 0, 0⟩ with
        | .error e => .error e
        | .ok (chunks, bb, _) => .ok (assemble sprites sub_map chunks bb)

/-- Container kind decided by the detector. -/
inductive LayKind where
  | raw
  | compressed
deriving DecidableEq

/-- Container detection of parse_lay (src/parse.rs lines 71-85): read the
first four bytes as a little-endian u32 and compare with the threshold. -/
def detectKind (bs : List Nat) : Except SgSpriteErr LayKind :=
  match takeBytes 4 bs with
  | .error e => .error e
  | .ok (hd, _) =>
    if SPRITES_MAX_RAW < u32leAt hd 0 then .ok .compressed else .ok .raw

/-- parse_lay: detect the container kind, then parse either the inflated
stream (inflate is the external zlib decoder, a black box here) or the
raw stream; both start again from offset 0. -/
def parse_lay (inflate : List Nat → Except SgSpriteErr (List Nat))
    (bs : List Nat) : Except SgSpriteErr ParsedLay :=
  match detectKind bs with
  | .error e => .error e
  | .ok .compressed =>
    match inflate bs with
    | .error e => .error e
    | .ok ds => parse_lay_impl ds
  | .ok .raw => parse_lay_impl bs

/-- Extract the payload of a successful parse (used only to state closed
evaluation facts about concrete inputs). -/
def getLay (e : Except SgSpriteErr ParsedLay) : ParsedLay :=
  match e with
  | .ok lay => lay
  | .error _ => default

/-- Index of the last Sub-variant sprite carrying a given id in a sprite
list, counting positions from the given start index. -/
def lastSubIdx (start : Nat) : List Sprite → Nat → Option Nat
  | [], _ => none
  | s :: rest, id =>
    match lastSubIdx (start + 1) rest id with
    | some j => some j
    | none =>
      if s.sprite_type = SpriteT.Sub ∧ s.id = id then some start else none

theorem takeBytes_ok {n : Nat} {bs r rest : List Nat}
    (h : takeBytes n bs = .ok (r, rest)) :
    n ≤ bs.length ∧ r = bs.take n ∧ rest = bs.drop n := by
  unfold takeBytes at h
  split_ifs at h with hle
  · injection h with h2
    injection h2 with ha hb
    exact ⟨hle, ha.symm, hb.symm⟩

theorem takeBytes_of_le {n : Nat} {bs : List Nat} (h : n ≤ bs.length) :
    takeBytes n bs = .ok (bs.take n, bs.drop n) := by
  simp [takeBytes, h]

theorem byteAt_take {l : List Nat} {n i : Nat} (h : i < n) :
    byteAt (l.take n) i = byteAt l i := by
  simp [byteAt, List.getElem?_take, h]

theorem u32leAt_take {l : List Nat} {n i : Nat} (h : i + 3 < n) :
    u32leAt (l.take n) i = u32leAt l i := by
  unfold u32leAt
  rw [byteAt_take (by omega), byteAt_take (by omega), byteAt_take (by omega),
    byteAt_take (by omega)]

theorem lastSubIdx_shift (l : List Sprite) (id start : Nat) :
    lastSubIdx start l id = (lastSubIdx 0 l id).map (fun j => j + start) := by
  induction l generalizing start with
  | nil => simp [lastSubIdx]
  | cons s t ih =>
    show (match lastSubIdx (start + 1) t id with
      | some j => some j
      | none =>
        if s.sprite_type = SpriteT.Sub ∧ s.id = id then some start
        else none) = _
    rw [show lastSubIdx 0 (s :: t) id =
        (match lastSubIdx 1 t id with
          | some j => some j
          | none =>
            if s.sprite_type = SpriteT.Sub ∧ s.id = id then some 0
            else none) from rfl]
    rw [ih (start + 1), ih 1]
    cases lastSubIdx 0 t id with
    | none =>
      by_cases hc : s.sprite_type = SpriteT.Sub ∧ s.id = id <;>
        simp [lastSubIdx, hc]
    | some j => simp [lastSubIdx]; omega

theorem lastSubIdx_cons (s : Sprite) (t : List Sprite) (id : Nat) :
    lastSubIdx 0 (s :: t) id =
      (match (lastSubIdx 0 t id).map (fun j => j + 1) with
        | some j => some j
        | none =>
          if s.sprite_type = SpriteT.Sub ∧ s.id = id then some 0
          else none) := by
  rw [show lastSubIdx 0 (s :: t) id =
      (match lastSubIdx 1 t id with
        | some j => some j
        | none =>
          if s.sprite_type = SpriteT.Sub ∧ s.id = id then some 0
          else none) from rfl]
  rw [lastSubIdx_shift t id 1]

theorem lastSubIdx_eq_none (l : List Sprite) (id : Nat) :
    lastSubIdx 0 l id = none ↔
      ∀ (j : Nat) (s : Sprite),
        l[j]? = some s → s.sprite_type = SpriteT.Sub → s.id ≠ id := by
  induction l with
  | nil => simp [lastSubIdx]
  | cons s t ih =>
    rw [lastSubIdx_cons]
    constructor
    · intro h j s2 hj hsub hid
      cases hn : (lastSubIdx 0 t id).map (fun j => j + 1) with
      | some j2 => rw [hn] at h; exact Option.noConfusion h
      | none =>
        rw [hn] at h
        have hnone : lastSubIdx 0 t id = none := by
          cases hx : lastSubIdx 0 t id with
          | none => rfl
          | some j2 => rw [hx] at hn; exact Option.noConfusion hn
        cases j with
        | zero =>
          simp only [List.getElem?_cons_zero] at hj
          injection hj with hj
          subst hj
          rw [if_pos ⟨hsub, hid⟩] at h
          exact Option.noConfusion h
        | succ j2 =>
          simp only [List.getElem?_cons_succ] at hj
          exact (ih.mp hnone) j2 s2 hj hsub hid
    · intro h
      have hnone : lastSubIdx 0 t id = none :=
        ih.mpr (fun j s2 hj hsub => h (j + 1) s2 (by simpa using hj) hsub)
      rw [hnone]
      simp only [Option.map_none']
      have : ¬(s.sprite_type = SpriteT.Sub ∧ s.id = id) := by
        intro hc
        exact h 0 s (by simp) hc.1 hc.2
      rw [if_neg this]

theorem lastSubIdx_eq_some (l : List Sprite) (id i : Nat) :
    lastSubIdx 0 l id = some i ↔
      ((∃ s : Sprite,
          l[i]? = some s ∧ s.sprite_type = SpriteT.Sub ∧ s.id = id) ∧
       ∀ (j : Nat) (s : Sprite), i < j → l[j]? = some s →
         s.sprite_type = SpriteT.Sub → s.id ≠ id) := by
  induction l generalizing i with
  | nil => simp [lastSubIdx]
  | cons s t ih =>
    rw [lastSubIdx_cons]
    cases hx : lastSubIdx 0 t id with
    | some j =>
      simp only [hx, Option.map_some']
      constructor
      · intro h
        injection h with h
        subst h
        obtain ⟨⟨s2, hs2, hsub2, hid2⟩, hafter⟩ := (ih j).mp hx
        refine ⟨⟨s2, by simpa using hs2, hsub2, hid2⟩, ?_⟩
        intro k s3 hk hks hsub3
        cases k with
        | zero => omega
        | succ k2 =>
          simp only [List.getElem?_cons_succ] at hks
          exact hafter k2 s3 (by omega) hks hsub3
      · rintro ⟨⟨s2, hs2, hsub2, hid2⟩, hafter⟩
        cases i with
        | zero =>
          obtain ⟨⟨s4, hs4, hsub4, hid4⟩, _⟩ := (ih j).mp hx
          exact absurd hid4
            (hafter (j + 1) s4 (by omega) (by simpa using hs4) hsub4)
        | succ i2 =>
          have h2 : lastSubIdx 0 t id = some i2 :=
            (ih i2).mpr ⟨⟨s2, by simpa using hs2, hsub2, hid2⟩,
              fun k s3 hk hks hsub3 =>
                hafter (k + 1) s3 (by omega) (by simpa using hks) hsub3⟩
          rw [hx] at h2
          injection h2 with h2
          rw [h2]
    | none =>
      simp only [hx, Option.map_none']
      by_cases hc : s.sprite_type = SpriteT.Sub ∧ s.id = id
      · rw [if_pos hc]
        constructor
        · intro h
          injection h with h
          subst h
          refine ⟨⟨s, by simp, hc.1, hc.2⟩, ?_⟩
          intro k s3 hk hks hsub3
          cases k with
          | zero => omega
          | succ k2 =>
            simp only [List.getElem?_cons_succ] at hks
            exact (lastSubIdx_eq_none t id).mp hx k2 s3 hks hsub3
        · rintro ⟨⟨s2, hs2, hsub2, hid2⟩, hafter⟩
          cases i with
          | zero => rfl
          | succ i2 =>
            have h2 : lastSubIdx 0 t id = some i2 :=
              (ih i2).mpr ⟨⟨s2, by simpa using hs2, hsub2, hid2⟩,
                fun k s3 hk hks hsub3 =>
                  hafter (k + 1) s3 (by omega) (by simpa using hks) hsub3⟩
            rw [hx] at h2
            exact Option.noConfusion h2
      · rw [if_neg hc]
        constructor
        · intro h
          exact Option.noConfusion h
        · rintro ⟨⟨s2, hs2, hsub2, hid2⟩, hafter⟩
          cases i with
          | zero =>
            simp only [List.getElem?_cons_zero] at hs2
            injection hs2 with hs2
            subst hs2
            exact absurd ⟨hsub2, hid2⟩ hc
          | succ i2 =>
            have h2 : lastSubIdx 0 t id = some i2 :=
              (ih i2).mpr ⟨⟨s2, by simpa using hs2, hsub2, hid2⟩,
                fun k s3 hk hks hsub3 =>
                  hafter (k + 1) s3 (by omega) (by simpa using hks) hsub3⟩
            rw [hx] at h2
            exact Option.noConfusion h2

theorem readSprites_spec :
    ∀ (n : Nat) (bs : List Nat) (acc : List Sprite) (m : Nat → Option Nat)
      (l : List Sprite) (m2 : Nat → Option Nat) (rest : List Nat),
      readSprites n bs acc m = .ok (l, m2, rest) →
      ∃ new : List Sprite,
        l = acc ++ new ∧ new.length = n ∧
        rest = bs.drop (SPRITE_SZ * n) ∧
        (∀ (i : Nat) (s : Sprite), new[i]? = some s →
          parseSprite ((bs.drop (SPRITE_SZ * i)).take SPRITE_SZ) = .ok s) ∧
        (∀ id : Nat, m2 id =
          match lastSubIdx acc.length new id with
          | some j => some j
          | none => m id)
  | 0, bs, acc, m, l, m2, rest, h => by
    simp only [readSprites, Except.ok.injEq, Prod.mk.injEq] at h
    obtain ⟨h1, h2, h3⟩ := h
    subst h1
    subst h2
    subst h3
    exact ⟨[], by simp, rfl, by simp, by simp, fun id => by simp [lastSubIdx]⟩
  | n + 1, bs, acc, m, l, m2, rest, h => by
    simp only [readSprites] at h
    split at h
    next e heq => simp at h
    next r rest1 heq =>
      obtain ⟨hlen, hr, hrest1⟩ := takeBytes_ok heq
      split at h
      next e hps => simp at h
      next s hps =>
        obtain ⟨new2, hl, hlen2, hrest, hdec, hmap⟩ :=
          readSprites_spec n rest1 (acc ++ [s]) _ l m2 rest h
        refine ⟨s :: new2, by simp [hl], by simp [hlen2], ?_, ?_, ?_⟩
        · rw [hrest, hrest1, List.drop_drop,
            show SPRITE_SZ + SPRITE_SZ * n = SPRITE_SZ * (n + 1) from by ring]
        · intro i s2 hi
          cases i with
          | zero =>
            simp only [List.getElem?_cons_zero] at hi
            injection hi with hi
            subst hi
            rw [show SPRITE_SZ * 0 = 0 from by ring, List.drop_zero, ← hr]
            exact hps
          | succ i2 =>
            simp only [List.getElem?_cons_succ] at hi
            have hd2 := hdec i2 s2 hi
            rw [hrest1, List.drop_drop,
              show SPRITE_SZ + SPRITE_SZ * i2 = SPRITE_SZ * (i2 + 1)
                from by ring] at hd2
            exact hd2
        · intro id
          have hm := hmap id
          rw [show (acc ++ [s]).length = acc.length + 1 from by simp] at hm
          simp only [lastSubIdx]
          cases hL : lastSubIdx (acc.length + 1) new2 id with
          | some j =>
            rw [hL] at hm
            exact hm
          | none =>
            rw [hL] at hm
            show m2 id =
              (match
                (if s.sprite_type = SpriteT.Sub ∧ s.id = id
                 then some acc.length else none : Option Nat) with
               | some j => some j
               | none => m id)
            by_cases hsub : s.sprite_type = SpriteT.Sub
            · rw [if_pos hsub] at hm
              by_cases hid : s.id = id
              · rw [if_pos ⟨hsub, hid⟩]
                simp only [mapInsert] at hm
                rw [if_pos hid.symm] at hm
                exact hm
              · rw [if_neg (fun hc => hid hc.2)]
                simp only [mapInsert] at hm
                rw [if_neg (fun hc => hid hc.symm)] at hm
                exact hm
            · rw [if_neg (fun hc => hsub hc.1)]
              rw [if_neg hsub] at hm
              exact hm

theorem readChunks_spec :
    ∀ (n : Nat) (bs : List Nat) (acc : List Chunk) (bb : BBox)
      (l : List Chunk) (bb2 : BBox) (rest : List Nat),
      readChunks n bs acc bb = .ok (l, bb2, rest) →
      ∃ new : List Chunk,
        l = acc ++ new ∧ new.length = n ∧
        rest = bs.drop (CHUNK_SZ * n) ∧
        (∀ (i : Nat) (c : Chunk), new[i]? = some c →
          parseChunk ((bs.drop (CHUNK_SZ * i)).take CHUNK_SZ) = .ok c) ∧
        bb2 = new.foldl bbUpdate bb
  | 0, bs, acc, bb, l, bb2, rest, h => by
    simp only [readChunks, Except.ok.injEq, Prod.mk.injEq] at h
    obtain ⟨h1, h2, h3⟩ := h
    subst h1
    subst h2
    subst h3
    exact ⟨[], by simp, rfl, by simp, by simp, by simp⟩
  | n + 1, bs, acc, bb, l, bb2, rest, h => by
    simp only [readChunks] at h
    split at h
    next e heq => simp at h
    next r rest1 heq =>
      obtain ⟨hlen, hr, hrest1⟩ := takeBytes_ok heq
      split at h
      next e hps => simp at h
      next c hps =>
        obtain ⟨new2, hl, hlen2, hrest, hdec, hbb⟩ :=
          readChunks_spec n rest1 (acc ++ [c]) (bbUpdate bb c) l bb2 rest h
        refine ⟨c :: new2, by simp [hl], by simp [hlen2], ?_, ?_,
          by simp [hbb]⟩
        · rw [hrest, hrest1, List.drop_drop,
            show CHUNK_SZ + CHUNK_SZ * n = CHUNK_SZ * (n + 1) from by ring]
        · intro i c2 hi
          cases i with
          | zero =>
            simp only [List.getElem?_cons_zero] at hi
            injection hi with hi
            subst hi
            rw [show CHUNK_SZ * 0 = 0 from by ring, List.drop_zero, ← hr]
            exact hps
          | succ i2 =>
            simp only [List.getElem?_cons_succ] at hi
            have hd2 := hdec i2 c2 hi
            rw [hrest1, List.drop_drop,
              show CHUNK_SZ + CHUNK_SZ * i2 = CHUNK_SZ * (i2 + 1)
                from by ring] at hd2
            exact hd2

theorem parse_lay_impl_ok {bs : List Nat} {lay : ParsedLay}
    (h : parse_lay_impl bs = .ok lay) :
    ∃ (sprites : List Sprite) (m : Nat → Option Nat) (rest2 : List Nat)
      (chunks : List Chunk) (bb : BBox) (rest3 : List Nat),
      HEADER_SZ ≤ bs.length ∧
      readSprites (u32leAt bs 0) (bs.drop HEADER_SZ) [] (fun _ => none) =
        .ok (sprites, m, rest2) ∧
      sprites.isEmpty = false ∧
      readChunks (u32leAt bs 4) rest2 [] ⟨0, 0, 0, 0⟩ =
        .ok (chunks, bb, rest3) ∧
      lay = assemble sprites m chunks bb := by
  unfold parse_lay_impl at h
  split at h
  next e heq => exact absurd h (by simp)
  next hdr rest heq =>
    obtain ⟨hlen, hhdr, hrest⟩ := takeBytes_ok heq
    have h0 : u32leAt hdr 0 = u32leAt bs 0 := by
      rw [hhdr]
      exact u32leAt_take (by simp [HEADER_SZ])
    have h4 : u32leAt hdr 4 = u32leAt bs 4 := by
      rw [hhdr]
      exact u32leAt_take (by simp [HEADER_SZ])
    rw [h0, h4, hrest] at h
    split at h
    next e heq2 => exact absurd h (by simp)
    next sprites m rest2 heq2 =>
      split at h
      next hempty => exact absurd h (by simp)
      next hempty =>
        split at h
        next e heq3 => exact absurd h (by simp)
        next chunks bb rest3 heq3 =>
          injection h with h
          exact ⟨sprites, m, rest2, chunks, bb, rest3, hlen, heq2,
            by simpa using hempty, heq3, h.symm⟩

theorem foldl_bbUpdate_fields (l : List Chunk) (bb : BBox) :
    (l.foldl bbUpdate bb).maxX = (l.map Chunk.img_x).foldl max bb.maxX ∧
    (l.foldl bbUpdate bb).minX = (l.map Chunk.img_x).foldl min bb.minX ∧
    (l.foldl bbUpdate bb).maxY = (l.map Chunk.img_y).foldl max bb.maxY ∧
    (l.foldl bbUpdate bb).minY = (l.map Chunk.img_y).foldl min bb.minY := by
  induction l generalizing bb with
  | nil => simp
  | cons c t ih => simpa [bbUpdate] using ih (bbUpdate bb c)

theorem le_foldl_max (l : List Int) (a : Int) : a ≤ l.foldl max a := by
  induction l generalizing a with
  | nil => simp
  | cons x t ih => exact le_trans (le_max_left a x) (ih (max a x))

theorem foldl_min_le (l : List Int) (a : Int) : l.foldl min a ≤ a := by
  induction l generalizing a with
  | nil => simp
  | cons x t ih => exact le_trans (ih (min a x)) (min_le_left a x)

theorem toU32_wrapAbs_pad (mx mn : Int) :
    ((toU32 (mx + wrapAbs mn + SPRITE_SIZE_PAD) : Nat) : Int) =
      (mx + |mn| + 32) % 4294967296 := by
  unfold toU32 wrapAbs SPRITE_SIZE_PAD
  rw [Int.toNat_of_nonneg (Int.emod_nonneg _ (by norm_num))]
  by_cases h : mn = -2147483648
  · subst h
    rw [show |(-2147483648 : Int)| = 2147483648 from by norm_num]
    rw [show ((2 : Int) ^ 32) = 4294967296 from by norm_num]
    omega
  · rw [if_neg h]
    norm_num

/-- Layout bytes declaring one Base sprite and two chunks whose img_x
fields are the floats 2 ^ 31 and -(2 ^ 31). -/
def overflowBytes : List Nat :=
  [1, 0, 0, 0, 2, 0, 0, 0] ++
  [0, 0, 0, 0, 0, 0, 0, 0, 0, 0, 0, 0] ++
  [0x00, 0x00, 0x00, 0x4F, 0, 0, 0, 0, 0, 0, 0, 0, 0, 0, 0, 0] ++
  [0x00, 0x00, 0x00, 0xCF, 0, 0, 0, 0, 0, 0, 0, 0, 0, 0, 0, 0]

/-- Layout bytes declaring one Base sprite and two chunks placed at
(-10, -5) and (20, 15). -/
def paddedBytes : List Nat :=
  [1, 0, 0, 0, 2, 0, 0, 0] ++
  [0, 0, 0, 0, 0, 0, 0, 0, 0, 0, 0, 0] ++
  [0x00, 0x00, 0x20, 0xC1, 0x00, 0x00, 0xA0, 0xC0,
   0, 0, 0, 0, 0, 0, 0, 0] ++
  [0x00, 0x00, 0xA0, 0x41, 0x00, 0x00, 0x70, 0x41,
   0, 0, 0, 0, 0, 0, 0, 0]

/-- Layout bytes declaring one Base sprite and a single chunk placed at
(5, 5). -/
def originBytes : List Nat :=
  [1, 0, 0, 0, 1, 0, 0, 0] ++
  [0, 0, 0, 0, 0, 0, 0, 0, 0, 0, 0, 0] ++
  [0x00, 0x00, 0xA0, 0x40, 0x00, 0x00, 0xA0, 0x40,
   0, 0, 0, 0, 0, 0, 0, 0]

/-- C3 counterexample: a successful parse whose extrema are 2147483647
and -2147483648 on the x axis; the returned width is 31, not the exact
sum max_x + abs min_x + 32 = 4294967327 (the i32 arithmetic wrapped). -/
theorem C3_canvas_counterexample :
    parse_lay_impl overflowBytes =
      .ok (getLay (parse_lay_impl overflowBytes)) ∧
    (getLay (parse_lay_impl overflowBytes)).sprite_xy_max.1 = 2147483647 ∧
    (getLay (parse_lay_impl overflowBytes)).sprite_xy_min.1 = -2147483648 ∧
    (getLay (parse_lay_impl overflowBytes)).sprite_w = 31 ∧
    ((31 : Int) ≠ 2147483647 + |(-2147483648 : Int)| + 32) :=
  ⟨rfl, rfl, rfl, rfl, by norm_num⟩

/-- C3 amended: for every successful parse the returned canvas sizes
satisfy the claimed equations as congruences modulo 2 ^ 32, and satisfy
them exactly whenever the mathematical sum stays below 2 ^ 32 (as in the
62 by 52 example). -/
theorem C3_canvas_equations (bs : List Nat) (lay : ParsedLay)
    (h : parse_lay_impl bs = .ok lay) :
    ((lay.sprite_w : Int) =
      (lay.sprite_xy_max.1 + |lay.sprite_xy_min.1| + 32) % 4294967296) ∧
    ((lay.sprite_h : Int) =
      (lay.sprite_xy_max.2 + |lay.sprite_xy_min.2| + 32) % 4294967296) ∧
    (lay.sprite_xy_max.1 + |lay.sprite_xy_min.1| + 32 < 4294967296 →
      (lay.sprite_w : Int) =
        lay.sprite_xy_max.1 + |lay.sprite_xy_min.1| + 32) ∧
    (lay.sprite_xy_max.2 + |lay.sprite_xy_min.2| + 32 < 4294967296 →
      (lay.sprite_h : Int) =
        lay.sprite_xy_max.2 + |lay.sprite_xy_min.2| + 32) := by
  obtain ⟨sprites, m, rest2, chunks, bb, rest3, hlen, hs, hne, hc, hlay⟩ :=
    parse_lay_impl_ok h
  obtain ⟨newc, hcl, _, _, _, hbb⟩ := readChunks_spec _ _ _ _ _ _ _ hc
  have hfold := foldl_bbUpdate_fields newc ⟨0, 0, 0, 0⟩
  have hmx : (0 : Int) ≤ bb.maxX := by
    rw [hbb, hfold.1]
    exact le_foldl_max _ 0
  have hmy : (0 : Int) ≤ bb.maxY := by
    rw [hbb, hfold.2.2.1]
    exact le_foldl_max _ 0
  subst hlay
  simp only [assemble]
  refine ⟨toU32_wrapAbs_pad bb.maxX bb.minX,
    toU32_wrapAbs_pad bb.maxY bb.minY, ?_, ?_⟩
  · intro hlt
    have h1 := toU32_wrapAbs_pad bb.maxX bb.minX
    have h2 := abs_nonneg bb.minX
    omega
  · intro hlt
    have h1 := toU32_wrapAbs_pad bb.maxY bb.minY
    have h2 := abs_nonneg bb.minY
    omega

/-- C3 witness: the spec example with img_x in {-10, 20} and img_y in
{-5, 15} parses to width 62 and height 52, matching the exact equation. -/
theorem C3_canvas_equations_witness :
    parse_lay_impl paddedBytes = .ok (getLay (parse_lay_impl paddedBytes)) ∧
    (getLay (parse_lay_impl paddedBytes)).sprite_xy_max = (20, 15) ∧
    (getLay (parse_lay_impl paddedBytes)).sprite_xy_min = (-10, -5) ∧
    (getLay (parse_lay_impl paddedBytes)).sprite_w = 62 ∧
    (getLay (parse_lay_impl paddedBytes)).sprite_h = 52 ∧
    (((getLay (parse_lay_impl paddedBytes)).sprite_w : Int) =
      (getLay (parse_lay_impl paddedBytes)).sprite_xy_max.1 +
        |(getLay (parse_lay_impl paddedBytes)).sprite_xy_min.1| + 32) := by
  refine ⟨rfl, rfl, rfl, rfl, rfl, ?_⟩
  have h := (C3_canvas_equations paddedBytes
    (getLay (parse_lay_impl paddedBytes)) rfl).2.2.1
  rw [show (getLay (parse_lay_impl paddedBytes)).sprite_xy_max.1 = 20
      from rfl,
    show (getLay (parse_lay_impl paddedBytes)).sprite_xy_min.1 = -10
      from rfl] at h ⊢
  exact h (by norm_num)

/-- C4: for every successful parse the returned extrema are the fold of
max and min over the converted img_x and img_y fields of all chunks,
starting from zero, so the box always contains the origin. -/
theorem C4_bbox_from_origin (bs : List Nat) (lay : ParsedLay)
    (h : parse_lay_impl bs = .ok lay) :
    lay.sprite_xy_max.1 = (lay.chunks.map Chunk.img_x).foldl max 0 ∧
    lay.sprite_xy_max.2 = (lay.chunks.map Chunk.img_y).foldl max 0 ∧
    lay.sprite_xy_min.1 = (lay.chunks.map Chunk.img_x).foldl min 0 ∧
    lay.sprite_xy_min.2 = (lay.chunks.map Chunk.img_y).foldl min 0 ∧
    lay.sprite_xy_min.1 ≤ 0 ∧ lay.sprite_xy_min.2 ≤ 0 ∧
    0 ≤ lay.sprite_xy_max.1 ∧ 0 ≤ lay.sprite_xy_max.2 := by
  obtain ⟨sprites, m, rest2, chunks, bb, rest3, hlen, hs, hne, hc, hlay⟩ :=
    parse_lay_impl_ok h
  obtain ⟨newc, hcl, _, _, _, hbb⟩ := readChunks_spec _ _ _ _ _ _ _ hc
  have hch : chunks = newc := by simpa using hcl
  subst hch
  have hfold := foldl_bbUpdate_fields chunks ⟨0, 0, 0, 0⟩
  subst hlay
  simp only [assemble]
  rw [hbb]
  refine ⟨hfold.1, hfold.2.2.1, hfold.2.1, hfold.2.2.2, ?_, ?_, ?_, ?_⟩
  · rw [hfold.2.1]
    exact foldl_min_le _ 0
  · rw [hfold.2.2.2]
    exact foldl_min_le _ 0
  · rw [hfold.1]
    exact le_foldl_max _ 0
  · rw [hfold.2.2.1]
    exact le_foldl_max _ 0

/-- C4 witness: a single chunk at (5, 5) yields bounding box min (0, 0)
and max (5, 5), because the accumulation starts at zero. -/
theorem C4_bbox_from_origin_witness :
    parse_lay_impl originBytes = .ok (getLay (parse_lay_impl originBytes)) ∧
    (getLay (parse_lay_impl originBytes)).sprite_xy_min = (0, 0) ∧
    (getLay (parse_lay_impl originBytes)).sprite_xy_max = (5, 5) ∧
    ((getLay (parse_lay_impl originBytes)).chunks.map Chunk.img_x = [5]) ∧
    (getLay (parse_lay_impl originBytes)).sprite_xy_min.1 ≤ 0 :=
  ⟨rfl, rfl, rfl, rfl,
    (C4_bbox_from_origin originBytes
      (getLay (parse_lay_impl originBytes)) rfl).2.2.2.2.1⟩

/-- Layout bytes declaring an Overlay sprite followed by a Base sprite
and no chunks. -/
def overlayBaseBytes : List Nat :=
  [2, 0, 0, 0, 0, 0, 0, 0] ++
  [0, 0, 16, 0x50, 0, 0, 0, 0, 0, 0, 0, 0] ++
  [1, 0, 0, 0x00, 0, 0, 0, 0, 0, 0, 0, 0]

/-- Layout bytes declaring a Base sprite followed by a Sub sprite with
id 5, and no chunks. -/
def baseSubBytes : List Nat :=
  [2, 0, 0, 0, 0, 0, 0, 0] ++
  [0, 0, 0, 0x00, 0, 0, 0, 0, 0, 0, 0, 0] ++
  [5, 0, 0, 0x20, 0, 0, 0, 0, 0, 0, 0, 0]

/-- Header bytes declaring zero sprites and one chunk. -/
def noSpritesBytes : List Nat := [0, 0, 0, 0, 1, 0, 0, 0]

/-- A 12-byte sprite record with the unknown type tag 0x70. -/
def unknownTagRecord : List Nat :=
  [0, 0, 0, 0x70, 0, 0, 0, 0, 0, 0, 0, 0]

/-- C5: the compressed path is selected exactly when the first four
bytes, decoded as a little-endian u32, exceed 65536; otherwise the raw
stream itself is parsed. -/
theorem C5_container_detection
    (inflate : List Nat → Except SgSpriteErr (List Nat))
    (bs : List Nat) (h : 4 ≤ bs.length) :
    (detectKind bs = .ok .compressed ↔ 65536 < u32leAt bs 0) ∧
    (detectKind bs = .ok .raw ↔ u32leAt bs 0 ≤ 65536) ∧
    (65536 < u32leAt bs 0 →
      parse_lay inflate bs = Except.bind (inflate bs) parse_lay_impl) ∧
    (u32leAt bs 0 ≤ 65536 → parse_lay inflate bs = parse_lay_impl bs) := by
  have ht : takeBytes 4 bs = .ok (bs.take 4, bs.drop 4) := takeBytes_of_le h
  have h0 : u32leAt (bs.take 4) 0 = u32leAt bs 0 := u32leAt_take (by norm_num)
  have hd : detectKind bs =
      if 65536 < u32leAt bs 0 then .ok .compressed else .ok .raw := by
    unfold detectKind
    rw [ht]
    show (if SPRITES_MAX_RAW < u32leAt (bs.take 4) 0 then
        (.ok .compressed : Except SgSpriteErr LayKind) else .ok .raw) =
      if 65536 < u32leAt bs 0 then .ok .compressed else .ok .raw
    rw [h0]
    rfl
  by_cases hc : 65536 < u32leAt bs 0
  · rw [if_pos hc] at hd
    refine ⟨by simp [hd, hc], by simp [hd]; omega, fun _ => ?_,
      fun hle => absurd hle (by omega)⟩
    unfold parse_lay
    rw [hd]
    cases hi : inflate bs with
    | error e => simp [hi, Except.bind]
    | ok ds => simp [hi, Except.bind]
  · rw [if_neg hc] at hd
    push_neg at hc
    refine ⟨by simp [hd]; omega, by simp [hd, hc], fun hgt =>
      absurd hgt (by omega), fun _ => ?_⟩
    unfold parse_lay
    rw [hd]

/-- C5 witness: the stream starting with value 1 is detected as raw and
parsed directly. -/
theorem C5_container_detection_witness :
    detectKind [1, 0, 0, 0] = .ok .raw ∧
    parse_lay (fun _ => .error .ioError) [1, 0, 0, 0] =
      parse_lay_impl [1, 0, 0, 0] :=
  ⟨(C5_container_detection (fun _ => .error .ioError) [1, 0, 0, 0]
      (by norm_num)).2.1.mpr (by decide),
   (C5_container_detection (fun _ => .error .ioError) [1, 0, 0, 0]
      (by norm_num)).2.2.2 (by decide)⟩

/-- C6: decoding a sprite record succeeds exactly when its type tag is
one of the six known discriminants, whatever the id, auxiliary and flag
bytes hold; any other tag yields the unknown sprite type error. -/
theorem C6_sprite_type_tags (r : List Nat) :
    ((∃ s : Sprite, parseSprite r = .ok s) ↔
      byteAt r 3 ∈ [0x00, 0x20, 0x30, 0x40, 0x50, 0x60]) ∧
    (byteAt r 3 ∉ ([0x00, 0x20, 0x30, 0x40, 0x50, 0x60] : List Nat) →
      parseSprite r = .error (.unknownSpriteType (byteAt r 3))) := by
  unfold parseSprite classify
  split_ifs with h1 h2 h3 h4
  · simp_all
  · simp_all
  · rcases h3 with h3 | h3 | h3 <;> simp_all
  · simp_all
  · simp_all

/-- C6 witness: the record with type tag 0x70 is rejected with the
unknown sprite type error. -/
theorem C6_sprite_type_tags_witness :
    parseSprite unknownTagRecord = .error (.unknownSpriteType 0x70) :=
  (C6_sprite_type_tags unknownTagRecord).2 (by decide)

/-- C7: base_dep is some 0 exactly when the first sprite has the Base
variant, and is never any other index. -/
theorem C7_base_dep_locality (bs : List Nat) (lay : ParsedLay)
    (h : parse_lay_impl bs = .ok lay) :
    (lay.base_dep = some 0 ↔
      lay.sprites.head?.map Sprite.sprite_type = some SpriteT.Base) ∧
    (lay.base_dep = none ∨ lay.base_dep = some 0) := by
  obtain ⟨sprites, m, rest2, chunks, bb, rest3, hlen, hs, hne, hc, hlay⟩ :=
    parse_lay_impl_ok h
  subst hlay
  simp only [assemble]
  cases sprites with
  | nil => simp at hne
  | cons s0 t =>
    by_cases hb : s0.sprite_type = SpriteT.Base <;> simp [hb]

/-- C7 witness: the sequence Overlay then Base yields base_dep none even
though a Base sprite is present at index 1. -/
theorem C7_base_dep_locality_witness :
    parse_lay_impl overlayBaseBytes =
      .ok (getLay (parse_lay_impl overlayBaseBytes)) ∧
    ((getLay (parse_lay_impl overlayBaseBytes)).sprites.map
      Sprite.sprite_type) = [SpriteT.Overlay, SpriteT.Base] ∧
    (getLay (parse_lay_impl overlayBaseBytes)).base_dep = none ∧
    ((getLay (parse_lay_impl overlayBaseBytes)).base_dep = none ∨
      (getLay (parse_lay_impl overlayBaseBytes)).base_dep = some 0) :=
  ⟨rfl, rfl, rfl,
    (C7_base_dep_locality overlayBaseBytes
      (getLay (parse_lay_impl overlayBaseBytes)) rfl).2⟩

/-- C8: sub_map sends an id to an index exactly when that index holds a
Sub sprite with that id and no later Sub sprite carries the same id, so
duplicate ids resolve to the last occurrence and every stored index
refers to a Sub sprite. -/
theorem C8_sub_map_last_sub (bs : List Nat) (lay : ParsedLay)
    (h : parse_lay_impl bs = .ok lay) (id i : Nat) :
    lay.sub_map id = some i ↔
      ((∃ s : Sprite, lay.sprites[i]? = some s ∧
          s.sprite_type = SpriteT.Sub ∧ s.id = id) ∧
       ∀ (j : Nat) (s : Sprite), i < j → lay.sprites[j]? = some s →
         s.sprite_type = SpriteT.Sub → s.id ≠ id) := by
  obtain ⟨sprites, m, rest2, chunks, bb, rest3, hlen, hs, hne, hc, hlay⟩ :=
    parse_lay_impl_ok h
  obtain ⟨news, hsl, hslen, hsrest, hsdec, hmap⟩ :=
    readSprites_spec _ _ _ _ _ _ _ hs
  have hsp : sprites = news := by simpa using hsl
  subst hsp
  subst hlay
  simp only [assemble]
  have hm := hmap id
  simp only [List.length_nil] at hm
  have hm2 : m id = lastSubIdx 0 sprites id := by
    rw [hm]
    cases lastSubIdx 0 sprites id with
    | some j => rfl
    | none => rfl
  rw [hm2]
  exact lastSubIdx_eq_some sprites id i

/-- C8 witness: the sequence Base then Sub with id 5 produces the entry
5 to index 1, and that index indeed holds the Sub sprite. -/
theorem C8_sub_map_last_sub_witness :
    parse_lay_impl baseSubBytes =
      .ok (getLay (parse_lay_impl baseSubBytes)) ∧
    (getLay (parse_lay_impl baseSubBytes)).sub_map 5 = some 1 ∧
    (∃ s : Sprite,
      (getLay (parse_lay_impl baseSubBytes)).sprites[1]? = some s ∧
        s.sprite_type = SpriteT.Sub ∧ s.id = 5) :=
  ⟨rfl, rfl,
    ((C8_sub_map_last_sub baseSubBytes
      (getLay (parse_lay_impl baseSubBytes)) rfl 5 1).mp rfl).1⟩

/-- C9: a header declaring zero sprites makes the parse fail with the
no sprites format error, whatever the chunk count and trailing bytes. -/
theorem C9_empty_rejected (bs : List Nat) (h8 : 8 ≤ bs.length)
    (h0 : u32leAt bs 0 = 0) :
    parse_lay_impl bs = .error .noSprites := by
  have hc : u32leAt (bs.take HEADER_SZ) 0 = 0 := by
    rw [u32leAt_take (by norm_num [HEADER_SZ])]
    exact h0
  unfold parse_lay_impl
  rw [takeBytes_of_le (show HEADER_SZ ≤ bs.length from h8)]
  show (match readSprites (u32leAt (bs.take HEADER_SZ) 0)
      (bs.drop HEADER_SZ) [] (fun _ => none) with
    | Except.error e => Except.error e
    | Except.ok (sprites, sub_map, rest2) =>
      if sprites.isEmpty then Except.error SgSpriteErr.noSprites
      else
        match readChunks (u32leAt (bs.take HEADER_SZ) 4) rest2 []
            ⟨0, 0, 0, 0⟩ with
        | Except.error e => Except.error e
        | Except.ok (chunks, bb, _) =>
          Except.ok (assemble sprites sub_map chunks bb)) =
    Except.error SgSpriteErr.noSprites
  rw [hc]
  rfl

/-- C9 witness: the header with sprite count 0 and chunk count 1 is
rejected with the no sprites error. -/
theorem C9_empty_rejected_witness :
    parse_lay_impl noSpritesBytes = .error .noSprites :=
  C9_empty_rejected noSpritesBytes (by norm_num [noSpritesBytes])
    (by decide)

/-- C10: a successful parse returns exactly the declared numbers of
sprites and chunks, and the record at each index decodes from the
corresponding on-disk record, in order. -/
theorem C10_counts_and_order (bs : List Nat) (lay : ParsedLay)
    (h : parse_lay_impl bs = .ok lay) :
    lay.sprites.length = u32leAt bs 0 ∧
    lay.chunks.length = u32leAt bs 4 ∧
    (∀ (i : Nat) (s : Sprite), lay.sprites[i]? = some s →
      parseSprite ((bs.drop (8 + 12 * i)).take 12) = .ok s) ∧
    (∀ (i : Nat) (c : Chunk), lay.chunks[i]? = some c →
      parseChunk ((bs.drop (8 + 12 * u32leAt bs 0 + 16 * i)).take 16) =
        .ok c) := by
  obtain ⟨sprites, m, rest2, chunks, bb, rest3, hlen, hs, hne, hc, hlay⟩ :=
    parse_lay_impl_ok h
  obtain ⟨news, hsl, hslen, hsrest, hsdec, hmap⟩ :=
    readSprites_spec _ _ _ _ _ _ _ hs
  obtain ⟨newc, hcl, hclen, hcrest, hcdec, hbb⟩ :=
    readChunks_spec _ _ _ _ _ _ _ hc
  have hsp : sprites = news := by simpa using hsl
  have hch : chunks = newc := by simpa using hcl
  subst hsp
  subst hch
  subst hlay
  simp only [assemble]
  refine ⟨hslen, hclen, ?_, ?_⟩
  · intro i s hi
    have hd := hsdec i s hi
    rw [List.drop_drop] at hd
    simpa [HEADER_SZ, SPRITE_SZ] using hd
  · intro i c hi
    have hd := hcdec i c hi
    rw [hsrest] at hd
    simp only [List.drop_drop] at hd
    simpa [HEADER_SZ, SPRITE_SZ, CHUNK_SZ] using hd

/-- C10 witness: the one sprite one chunk input returns sequences of the
declared lengths. -/
theorem C10_counts_and_order_witness :
    parse_lay_impl originBytes = .ok (getLay (parse_lay_impl originBytes)) ∧
    (getLay (parse_lay_impl originBytes)).sprites.length = 1 ∧
    (getLay (parse_lay_impl originBytes)).chunks.length = 1 ∧
    (getLay (parse_lay_impl originBytes)).sprites.length =
      u32leAt originBytes 0 :=
  ⟨rfl, rfl, rfl,
    (C10_counts_and_order originBytes
      (getLay (parse_lay_impl originBytes)) rfl).1⟩
